import Mathlib

/-!
# Verification of the K-FAC preconditioner pipeline (examples/kfac_pre.py)

Shallow embedding of the K-FAC example over exact rationals.  Matrices are
Mathlib matrices over `ℚ` indexed by `Fin`; per-layer collections (whose
widths vary from layer to layer) are dependent functions over `Fin L`, and a
layer's accumulated sample batches (whose row counts vary from batch to
batch) are lists of sigma-packed matrices.  numpy floating point is modelled
by `ℚ`; `np.tanh` and `logsumexp`, which are transcendental, are taken as
function parameters, so every statement below holds for all instantiations.
Fallible numpy operations (shape errors, the `ZeroDivisionError` raised when
re-estimating from an empty buffer, out-of-range fancy indexing) are
modelled with `Option`.
-/

namespace KfacPre

/-- A `rows × cols` matrix of rationals (a numpy 2-d array). -/
abbrev Mat (m n : ℕ) := Matrix (Fin m) (Fin n) ℚ

/-- A square matrix of rationals. -/
abbrev SqMat (n : ℕ) := Mat n n

/-- The (square) dimension of a square matrix, read off its type. -/
def matSize {n : ℕ} (_ : SqMat n) : ℕ := n

/-- `append_homog_coord = lambda x: np.hstack((x, np.ones((x.shape[0], 1))))`:
append a constant 1-valued column to every row of `x`. -/
def append_homog_coord {N m : ℕ} (x : Mat N m) : Mat N (m + 1) :=
  Matrix.of fun i => Fin.snoc (x i) 1

/-- `sumsq = lambda samples: np.dot(samples.T, samples)`: the un-normalized
second moment of a batch of row-vector samples. -/
def sumsq {N m : ℕ} (samples : Mat N m) : SqMat m :=
  samples.transpose * samples

/-- One layer's accumulated sample batches: a list of matrices of a fixed
width `m`, each with its own row count (`samples.shape[0]`). -/
abbrev LayerSamples (m : ℕ) := List ((N : ℕ) × Mat N m)

/-- A per-layer sample buffer: for each of the `L` layers, the list of
batches collected for that layer (`all_samples[i]` in the source). -/
abbrev Buf {L : ℕ} (w : Fin L → ℕ) := ∀ i : Fin L, LayerSamples (w i)

/-- Equality of buffers is decidable layer by layer (used only to evaluate
concrete witnesses). -/
instance bufDecEq {L : ℕ} {w : Fin L → ℕ} : DecidableEq (Buf w) :=
  inferInstance

/-- Total number of examples across one layer's batches:
`sum(samples.shape[0] for samples in layer_samples)`. -/
def layerCount {m : ℕ} (ls : LayerSamples m) : ℕ :=
  (ls.map fun S => S.1).sum

/-- The summed un-normalized second moment of one layer's batches, with the
per-sample transformation `hom` (homogeneous-coordinate augmentation or the
identity) applied to each batch first:
`sum(map(sumsq, map(homog, layer_samples)))`. -/
def layerSumsq {m k : ℕ} (hom : ∀ {N : ℕ}, Mat N m → Mat N k)
    (ls : LayerSamples m) : SqMat k :=
  (ls.map fun S => sumsq (hom S.2)).sum

/-- `estimate_block_factors(all_samples, append_homog)`.  The normalizing
count is taken from the FIRST layer only
(`num_samples = sum(samples.shape[0] for samples in all_samples[0])`) and
divides every layer's summed second moment.  The boolean `append_homog`
flag of the source selects the per-batch transformation; it is passed here
as the function `hom` together with its effect `wf` on the sample width.
Failure cases modelled by `none`: an empty layer list (`all_samples[0]`
raises `IndexError` when `L = 0`) and the `ZeroDivisionError` raised when a
layer holds no batches while the total count is zero (the Python sum of an
empty list is the integer 0, and `0 / 0` raises).  `ℚ` has no NaN, so the
unreachable nonempty-layer/zero-count division is the junk value `0⁻¹ • _`;
no claim rests on that case. -/
def estimate_block_factors {L : ℕ} {w : Fin L → ℕ} (wf : ℕ → ℕ)
    (hom : ∀ {N m : ℕ}, Mat N m → Mat N (wf m)) (all_samples : Buf w) :
    Option (∀ i : Fin L, SqMat (wf (w i))) :=
  if hL : 0 < L then
    if ∀ i, ¬((all_samples i).isEmpty ∧ layerCount (all_samples ⟨0, hL⟩) = 0) then
      some fun i => (layerCount (all_samples ⟨0, hL⟩) : ℚ)⁻¹ •
        layerSumsq (fun x => hom x) (all_samples i)
    else none
  else none

/-- `estimate_block_factors(all_samples, append_homog=True)`. -/
def estimate_block_factors_homog {L : ℕ} {w : Fin L → ℕ} (all_samples : Buf w) :
    Option (∀ i : Fin L, SqMat (w i + 1)) :=
  estimate_block_factors (fun m => m + 1) (fun x => append_homog_coord x) all_samples

/-- `estimate_block_factors(all_samples)` with the default
`append_homog=False` (the per-batch transformation is `identity`). -/
def estimate_block_factors_plain {L : ℕ} {w : Fin L → ℕ} (all_samples : Buf w) :
    Option (∀ i : Fin L, SqMat (w i)) :=
  estimate_block_factors (fun m => m) (fun x => x) all_samples

/-- A pair of per-layer square factor matrices (the A-factors, of width
`aw i + 1` from the homogeneous coordinate, and the G-factors, of width
`gw i`). -/
abbrev Factors {L : ℕ} (aw gw : Fin L → ℕ) :=
  (∀ i : Fin L, SqMat (aw i + 1)) × (∀ i : Fin L, SqMat (gw i))

/-- `update_factor_estimates(old_estimates, samples, eps)`: re-estimate the
per-layer second moments from the buffered samples (A-factors with the
homogeneous coordinate, G-factors without) and combine with the previous
estimates by `update = lambda old, new: eps*old + (1.-eps)*new`. -/
def update_factor_estimates {L : ℕ} {aw gw : Fin L → ℕ}
    (old_estimates : Factors aw gw) (samples : Buf aw × Buf gw) (eps : ℚ) :
    Option (Factors aw gw) := do
  let Ahats ← estimate_block_factors_homog samples.1
  let Ghats ← estimate_block_factors_plain samples.2
  return (fun i => eps • old_estimates.1 i + (1 - eps) • Ahats i,
          fun i => eps • old_estimates.2 i + (1 - eps) • Ghats i)

/-- Layer widths on the input side: `layer_sizes[:-1]`. -/
abbrev AW {L : ℕ} (sizes : Fin (L + 1) → ℕ) : Fin L → ℕ :=
  fun i => sizes i.castSucc

/-- Layer widths on the output side: `layer_sizes[1:]`. -/
abbrev GW {L : ℕ} (sizes : Fin (L + 1) → ℕ) : Fin L → ℕ :=
  fun i => sizes i.succ

/-- `init_factor_estimates(layer_sizes)`:
`map(np.eye, layer_sizes[:-1] + 1), map(np.eye, layer_sizes[1:])`. -/
def init_factor_estimates {L : ℕ} (sizes : Fin (L + 1) → ℕ) :
    Factors (AW sizes) (GW sizes) :=
  (fun _ => 1, fun _ => 1)

/-- The matrix inverse computed by `np.linalg.inv`, in exact arithmetic:
`det⁻¹ • adjugate` (equal to the true inverse whenever the determinant is
nonzero; `np.linalg.inv` fails numerically on a singular input, here the
junk value `0 • adjugate`). -/
def matInv {n : ℕ} (X : SqMat n) : SqMat n :=
  (X.det)⁻¹ • X.adjugate

/-- `inv = lambda X: np.linalg.inv(X + lmbda*np.eye(X.shape[0]))`: the
damped inverse of a single factor matrix. -/
def damped_inv {n : ℕ} (lmbda : ℚ) (X : SqMat n) : SqMat n :=
  matInv (X + lmbda • 1)

/-- `compute_precond(factor_estimates, lmbda)`: map the damped inverse over
both per-layer factor lists of the pair. -/
def compute_precond {L : ℕ} {aw gw : Fin L → ℕ}
    (factor_estimates : (∀ i : Fin L, SqMat (aw i)) × (∀ i : Fin L, SqMat (gw i)))
    (lmbda : ℚ) :
    (∀ i : Fin L, SqMat (aw i)) × (∀ i : Fin L, SqMat (gw i)) :=
  (fun i => damped_inv lmbda (factor_estimates.1 i),
   fun i => damped_inv lmbda (factor_estimates.2 i))

/-- `np.vstack((W_grad, b_grad))`: stack the `m × n` weight-gradient matrix
and the `n`-vector bias gradient into an `(m+1) × n` matrix. -/
def vstackRow {m n : ℕ} (W : Mat m n) (b : Fin n → ℚ) : Mat (m + 1) n :=
  Matrix.of (Fin.snoc (fun i => W i) b)

/-- `apply_block(Ainv, Ginv, W_grad, b_grad)`:
`Wb_natgrad = np.dot(Ainv, np.dot(Wb_grad, Ginv))`, returned as
`(Wb_natgrad[:-1], Wb_natgrad[-1])` (first `m` rows, last row). -/
def apply_block {m n : ℕ} (Ainv : SqMat (m + 1)) (Ginv : SqMat n)
    (W_grad : Mat m n) (b_grad : Fin n → ℚ) : Mat m n × (Fin n → ℚ) :=
  let Wb_natgrad := Ainv * (vstackRow W_grad b_grad * Ginv)
  (Matrix.of fun i => Wb_natgrad i.castSucc, Wb_natgrad (Fin.last m))

/-- A per-layer raw gradient (or parameter) list: one `(W, b)` pair per
layer, `W : mw i × nw i`, `b : nw i`. -/
abbrev Grads {L : ℕ} (mw nw : Fin L → ℕ) :=
  ∀ i : Fin L, Mat (mw i) (nw i) × (Fin (nw i) → ℚ)

/-- `apply_preconditioner(precond, gradient)`: zip the two inverse-factor
lists with the per-layer gradients and apply `apply_block` laywerwise. -/
def apply_preconditioner {L : ℕ} {mw nw : Fin L → ℕ}
    (precond : (∀ i : Fin L, SqMat (mw i + 1)) × (∀ i : Fin L, SqMat (nw i)))
    (gradient : Grads mw nw) : Grads mw nw :=
  fun i => apply_block (precond.1 i) (precond.2 i) (gradient i).1 (gradient i).2

/-- `update_params(params, natgrad, step_size)`:
`[(W - step_size*dW, b - step_size*db) for ...]`. -/
def update_params {L : ℕ} {mw nw : Fin L → ℕ}
    (params natgrad : Grads mw nw) (step_size : ℚ) : Grads mw nw :=
  fun i => ((params i).1 - step_size • (natgrad i).1,
            (params i).2 - step_size • (natgrad i).2)

/-- `init_sample_lists(layer_sizes)`: a pair of fresh buffers, one empty
batch list per layer on each side. -/
def init_sample_lists {L : ℕ} (sizes : Fin (L + 1) → ℕ) :
    Buf (AW sizes) × Buf (GW sizes) :=
  (fun _ => [], fun _ => [])

/-- `append_samples(all_samples, new_samples)`: append the newly collected
batch of each layer at the end of that layer's list. -/
def append_samples {L : ℕ} {w : Fin L → ℕ} (all_samples : Buf w)
    (new_samples : ∀ i : Fin L, (N : ℕ) × Mat N (w i)) : Buf w :=
  fun i => all_samples i ++ [new_samples i]

/-- The state threaded through the `kfac` loop. -/
structure KfacState {L : ℕ} (sizes : Fin (L + 1) → ℕ) where
  params : Grads (AW sizes) (GW sizes)
  samples : Buf (AW sizes) × Buf (GW sizes)
  factors : Factors (AW sizes) (GW sizes)
  precond : Factors (AW sizes) (GW sizes)

/-- One iteration of the `kfac` main loop, for iteration index `i`.  The
external collaborators are parameters: `objective_grad` is
`val_and_grad(objective)` and `sampler params i` stands for
`collect_activations_and_grad_samples(params, get_batch(i), num_samples)`
(whose body uses `npr.choice` and reverse-mode autodiff and is abstracted
as an oracle producing one activation batch and one gradient batch per
layer).  The `print map(cond, ...)` diagnostic line changes no state and is
omitted.  `none` propagates the Python errors of the phase bodies (e.g. the
`ZeroDivisionError` of re-estimating from an empty buffer). -/
def kfac_step {L : ℕ} (sizes : Fin (L + 1) → ℕ)
    (objective_grad : Grads (AW sizes) (GW sizes) → ℕ → ℚ × Grads (AW sizes) (GW sizes))
    (sampler : Grads (AW sizes) (GW sizes) → ℕ →
      (∀ i : Fin L, (N : ℕ) × Mat N (AW sizes i)) × (∀ i : Fin L, (N : ℕ) × Mat N (GW sizes i)))
    (step_size : ℚ) (sample_period reestimate_period update_precond_period : ℕ)
    (lmbda eps : ℚ) (st : KfacState sizes) (i : ℕ) : Option (KfacState sizes) :=
  let gradient := (objective_grad st.params i).2
  let samples1 :=
    if (i + 1) % sample_period = 0 then
      (append_samples st.samples.1 (sampler st.params i).1,
       append_samples st.samples.2 (sampler st.params i).2)
    else st.samples
  let step2 : Option (Factors (AW sizes) (GW sizes) × (Buf (AW sizes) × Buf (GW sizes))) :=
    if (i + 1) % reestimate_period = 0 then
      (update_factor_estimates st.factors samples1 eps).map
        (fun f => (f, init_sample_lists sizes))
    else some (st.factors, samples1)
  match step2 with
  | none => none
  | some (factors2, samples2) =>
    let precond2 :=
      if (i + 1) % update_precond_period = 0 then compute_precond factors2 lmbda
      else st.precond
    let natgrad := apply_preconditioner precond2 gradient
    some ⟨update_params st.params natgrad step_size, samples2, factors2, precond2⟩

/-- `kfac(...)`: initialize the buffer, the identity factor estimates and
the damped-identity preconditioner, run `num_iters` iterations of
`kfac_step`, and return the final parameters. -/
def kfac {L : ℕ} (sizes : Fin (L + 1) → ℕ)
    (objective_grad : Grads (AW sizes) (GW sizes) → ℕ → ℚ × Grads (AW sizes) (GW sizes))
    (sampler : Grads (AW sizes) (GW sizes) → ℕ →
      (∀ i : Fin L, (N : ℕ) × Mat N (AW sizes i)) × (∀ i : Fin L, (N : ℕ) × Mat N (GW sizes i)))
    (init_params : Grads (AW sizes) (GW sizes)) (step_size : ℚ) (num_iters : ℕ)
    (sample_period reestimate_period update_precond_period : ℕ)
    (lmbda eps : ℚ) : Option (Grads (AW sizes) (GW sizes)) := do
  let factors := init_factor_estimates sizes
  let st0 : KfacState sizes :=
    ⟨init_params, init_sample_lists sizes, factors, compute_precond factors lmbda⟩
  let final ← (List.range num_iters).foldlM
    (kfac_step sizes objective_grad sampler step_size sample_period
      reestimate_period update_precond_period lmbda eps) st0
  return final.params

/-- The parameter list of the network: a nonempty chain of `(W, b)` affine
layers whose widths compose (`params` in the source, with the shape
discipline of `init_random_params`). -/
inductive Net : ℕ → ℕ → Type where
  | single : ∀ {m n : ℕ}, Mat m n → (Fin n → ℚ) → Net m n
  | cons : ∀ {m k n : ℕ}, Mat m k → (Fin k → ℚ) → Net k n → Net m n

/-- `np.dot(inputs, W) + b`, the bias row broadcast over the batch rows. -/
def affine {N m n : ℕ} (inputs : Mat N m) (W : Mat m n) (b : Fin n → ℚ) : Mat N n :=
  Matrix.of fun i j => (inputs * W) i j + b j

/-- `np.tanh` applied elementwise, the scalar `tanh` being a parameter. -/
def tanhM (tanh : ℚ → ℚ) {N n : ℕ} (M : Mat N n) : Mat N n :=
  Matrix.of fun i j => tanh (M i j)

/-- `mlp(params, inputs)`: a multi-layer perceptron with a linear last
layer; the loop keeps `outputs = np.dot(inputs, W) + b` and feeds
`np.tanh(outputs)` forward, returning the last pre-activation `outputs`. -/
def mlp (tanh : ℚ → ℚ) {N : ℕ} : {m n : ℕ} → Net m n → Mat N m → Mat N n
  | _, _, .single W b, inputs => affine inputs W b
  | _, _, .cons W b rest, inputs => mlp tanh rest (tanhM tanh (affine inputs W b))

/-- The keyword parameters accepted by `autograd.scipy.misc.logsumexp`
(`logsumexp(a, axis=None, b=None, keepdims=False)`). -/
def logsumexp_kwargs : List String := ["axis", "b", "keepdims"]

/-- The row-wise `logsumexp(s, axis=1)` reduction with `keepdims=True`,
broadcast-subtracted: `s - logsumexp(s, axis=1, keepdims=True)`.  The
scalar reduction `lse` of each row is a parameter (it is transcendental). -/
def sub_rowwise_lse (lse : ∀ {D : ℕ}, (Fin D → ℚ) → ℚ) {N D : ℕ}
    (s : Mat N D) : Mat N D :=
  Matrix.of fun i j => s i j - lse (s i)

/-- `softmax(inputs)` as written on line 31 of the source:
`inputs - logsumexp(inputs, axis=1, kepdims=True)`.  The keyword is
misspelled `kepdims`, which is not a parameter of `logsumexp`, so in Python
the call raises `TypeError: unexpected keyword argument` before computing
anything; modelled by testing the passed keyword against
`logsumexp_kwargs` and returning `none` on the mismatch. -/
def softmax (lse : ∀ {D : ℕ}, (Fin D → ℚ) → ℚ) {N D : ℕ}
    (inputs : Mat N D) : Option (Mat N D) :=
  if "kepdims" ∈ logsumexp_kwargs then some (sub_rowwise_lse (fun v => lse v) inputs)
  else none

/-- Modelled from the spec: the softmax that line 31 intends, with the
keyword spelled `keepdims` so the row-wise reduction is kept as a column
and broadcast-subtracted (`predict(params, inputs) → log_probabilities`).
The sampler's forward pass (line 69) writes exactly this expression with
the correct spelling. -/
def softmax_intended (lse : ∀ {D : ℕ}, (Fin D → ℚ) → ℚ) {N D : ℕ}
    (inputs : Mat N D) : Mat N D :=
  sub_rowwise_lse (fun v => lse v) inputs

/-- `neural_net_predict(params, inputs) = softmax(mlp(params, inputs))`. -/
def neural_net_predict (tanh : ℚ → ℚ) (lse : ∀ {D : ℕ}, (Fin D → ℚ) → ℚ)
    {N m n : ℕ} (params : Net m n) (inputs : Mat N m) : Option (Mat N n) :=
  softmax (fun v => lse v) (mlp tanh params inputs)

/-- The type of the `extra_biases` argument of
`neural_net_predict_and_activations`: one `(batch, layer_width)` matrix per
layer of the chain. -/
@[reducible] def EB (N : ℕ) : {m n : ℕ} → Net m n → Type
  | _, _, @Net.single _ n _ _ => Mat N n
  | _, _, @Net.cons _ k _ _ _ rest => Mat N k × EB N rest

/-- The all-zero `extra_biases`
(`[np.zeros((inputs.shape[0], b.shape[0])) for W, b in params]`). -/
def zeroEB (N : ℕ) : {m n : ℕ} → (net : Net m n) → EB N net
  | _, _, .single _ _ => 0
  | _, _, .cons _ _ rest => (0, zeroEB N rest)

/-- `neural_net_predict_and_activations(extra_biases, params, inputs)`:
per layer `s = np.dot(all_activations[-1], W) + b + extra_bias`, appending
`np.tanh(s)` to the activations; the returned log-probabilities are
`s - logsumexp(s, axis=1, keepdims=True)` for the last `s` (keyword spelled
correctly here), and the returned activations are `all_activations[:-1]`,
the input batch feeding each layer. -/
def neural_net_predict_and_activations (tanh : ℚ → ℚ)
    (lse : ∀ {D : ℕ}, (Fin D → ℚ) → ℚ) {N : ℕ} :
    {m n : ℕ} → (net : Net m n) → EB N net → Mat N m →
      Mat N n × List ((d : ℕ) × Mat N d)
  | _, _, .single W b, eb, inputs =>
    let s := affine inputs W b + eb
    (sub_rowwise_lse (fun v => lse v) s, [⟨_, inputs⟩])
  | _, _, .cons W b rest, eb, inputs =>
    let s := affine inputs W b + eb.1
    let r := neural_net_predict_and_activations tanh lse rest eb.2 (tanhM tanh s)
    (r.1, ⟨_, inputs⟩ :: r.2)

/-- The row-wise cumulative sums `cumvals = np.cumsum(probs, axis=1)` of
`probs = np.exp(logprobs)`, the scalar `exp` being a parameter. -/
def cumvals (exp : ℚ → ℚ) {N D : ℕ} (logprobs : Mat N D) : Mat N D :=
  Matrix.of fun i j => (Finset.Iic j).sum fun k => exp (logprobs i k)

/-- `indices = np.sum(npr.rand(N, 1) > cumvals, axis=1)`: for each row,
how many cumulative sums the row's uniform draw `r i` strictly exceeds. -/
def sample_indices (exp : ℚ → ℚ) {N D : ℕ} (logprobs : Mat N D)
    (r : Fin N → ℚ) : Fin N → ℕ :=
  fun i => (Finset.univ.filter fun j => cumvals exp logprobs i j < r i).card

/-- `sample_discrete_from_log(logprobs)` with the uniform draws
`npr.rand(N, 1)` passed explicitly as `r`: returns
`np.eye(D)[indices]`, the rows of the `D × D` identity selected by
`indices`.  The fancy indexing is modelled as fallible (`none` when some
index falls outside `[0, D)`, the case in which numpy raises
`IndexError`). -/
def sample_discrete_from_log (exp : ℚ → ℚ) {N D : ℕ} (logprobs : Mat N D)
    (r : Fin N → ℚ) : Option (Mat N D) :=
  if ∀ i, sample_indices exp logprobs r i < D then
    some (Matrix.of fun i j => if (j : ℕ) = sample_indices exp logprobs r i then 1 else 0)
  else none

/-! ### Concrete inputs used by counterexamples and witnesses -/

/-- A two-layer buffer whose layers hold DIFFERENT example counts: layer 0
has one batch of 1 example, layer 1 has one batch of 2 examples (both of
width 1). -/
def cexBuf : ∀ _ : Fin 2, LayerSamples 1 :=
  ![[⟨1, !![1]⟩], [⟨2, !![1; 1]⟩]]

/-- The A-factors `estimate_block_factors` actually produces on `cexBuf`:
layer 1's summed moment `[[2,2],[2,2]]` is divided by layer 0's count 1,
not by layer 1's own count 2. -/
def cexRes : ∀ _ : Fin 2, SqMat 2 :=
  ![!![1, 1; 1, 1], !![2, 2; 2, 2]]

/-- Layer-size vector `[1, 1]` (one affine layer of width 1) used by the
concrete witnesses. -/
abbrev wSizes : Fin 2 → ℕ := fun _ => 1

/-- A one-layer buffer holding a single 1-example batch of width 1. -/
abbrev wBuf : ∀ _ : Fin 1, LayerSamples 1 := fun _ => [⟨1, !![1]⟩]

/-- The all-empty one-layer buffer. -/
abbrev wEmptyBuf : ∀ _ : Fin 1, LayerSamples 1 := fun _ => []

/-- Identity factor pair for the `[1, 1]` architecture. -/
abbrev wFactors : Factors (AW wSizes) (GW wSizes) := (fun _ => 1, fun _ => 1)

/-- Concrete parameters (one zero layer) for the `[1, 1]` architecture. -/
abbrev wParams : Grads (AW wSizes) (GW wSizes) := fun _ => (0, 0)

/-- Concrete `val_and_grad(objective)` oracle: value 0, gradient equal to
the parameters themselves. -/
abbrev wObjGrad : Grads (AW wSizes) (GW wSizes) → ℕ → ℚ × Grads (AW wSizes) (GW wSizes) :=
  fun p _ => (0, p)

/-- Concrete sampler oracle: one 1-example batch `[[1]]` per layer on both
sides. -/
abbrev wSampler : Grads (AW wSizes) (GW wSizes) → ℕ →
    (∀ _ : Fin 1, (N : ℕ) × Mat N 1) × (∀ _ : Fin 1, (N : ℕ) × Mat N 1) :=
  fun _ _ => (fun _ => ⟨1, !![1]⟩, fun _ => ⟨1, !![1]⟩)

/-- Concrete loop state for the `[1, 1]` architecture. -/
abbrev wState : KfacState wSizes :=
  ⟨wParams, (wEmptyBuf, wEmptyBuf), wFactors, wFactors⟩

/-- The buffer after the collection phase of the witness iteration. -/
abbrev wSamples1 : (∀ _ : Fin 1, LayerSamples 1) × (∀ _ : Fin 1, LayerSamples 1) :=
  (wBuf, wBuf)

/-- The factors after the re-estimation phase of the witness iteration
(with `eps = 0`, the bare empirical moments of `wBuf`). -/
abbrev wFactors2 : Factors (AW wSizes) (GW wSizes) :=
  (fun _ => !![1, 1; 1, 1], fun _ => !![1])

/-! ### Theorems -/

/-- Evaluation of `estimate_block_factors` when the input passes the
emptiness/zero-count guard: every layer's summed second moment is divided
by the first layer's total example count. -/
theorem estimate_block_factors_eq {L : ℕ} {w : Fin L → ℕ} (wf : ℕ → ℕ)
    (hom : ∀ {N m : ℕ}, Mat N m → Mat N (wf m)) (all_samples : Buf w) (hL : 0 < L)
    (hguard : ∀ i, ¬((all_samples i).isEmpty ∧ layerCount (all_samples ⟨0, hL⟩) = 0)) :
    estimate_block_factors wf (fun x => hom x) all_samples =
      some fun i => (layerCount (all_samples ⟨0, hL⟩) : ℚ)⁻¹ •
        layerSumsq (fun x => hom x) (all_samples i) := by
  unfold estimate_block_factors
  rw [dif_pos hL, if_pos hguard]

/-- C10: `estimate_block_factors` computes the normalizing example count
solely from the first layer's batch list and divides every layer's summed
second moment by that single count (with the homogeneous column for the
A-side call and without it for the G-side call). -/
theorem estimate_uses_first_layer_count {L : ℕ} {w : Fin L → ℕ} (all_samples : Buf w)
    (hL : 0 < L)
    (hguard : ∀ i, ¬((all_samples i).isEmpty ∧ layerCount (all_samples ⟨0, hL⟩) = 0)) :
    estimate_block_factors_homog all_samples =
      some (fun i => (layerCount (all_samples ⟨0, hL⟩) : ℚ)⁻¹ •
        layerSumsq (fun x => append_homog_coord x) (all_samples i)) ∧
    estimate_block_factors_plain all_samples =
      some (fun i => (layerCount (all_samples ⟨0, hL⟩) : ℚ)⁻¹ •
        layerSumsq (fun x => x) (all_samples i)) := by
  constructor
  · exact estimate_block_factors_eq (fun m => m + 1)
      (fun x => append_homog_coord x) all_samples hL hguard
  · exact estimate_block_factors_eq (fun m => m) (fun x => x) all_samples hL hguard

/-- Witness for C10, on a buffer whose two layers hold different example
counts (1 and 2): both layers are normalized by layer 0's count. -/
theorem estimate_uses_first_layer_count_witness :
    (∀ i, ¬((cexBuf i).isEmpty ∧ layerCount (cexBuf ⟨0, by decide⟩) = 0)) ∧
    (@estimate_block_factors_homog 2 (fun _ => 1) cexBuf =
      some (fun i => (layerCount (cexBuf ⟨0, by decide⟩) : ℚ)⁻¹ •
        layerSumsq (fun x => append_homog_coord x) (cexBuf i)) ∧
     @estimate_block_factors_plain 2 (fun _ => 1) cexBuf =
      some (fun i => (layerCount (cexBuf ⟨0, by decide⟩) : ℚ)⁻¹ •
        layerSumsq (fun x => x) (cexBuf i))) :=
  ⟨by decide, estimate_uses_first_layer_count cexBuf (by decide) (by decide)⟩

/-- Counterexample to C2 as stated: on `cexBuf`, whose layer 1 holds 2
examples while layer 0 holds 1, the A-factor of layer 1 is NOT the layer's
summed moment divided by its own total example count — the code divides by
layer 0's count instead. -/
theorem estimate_own_count_counterexample :
    @estimate_block_factors_homog 2 (fun _ => 1) cexBuf = some cexRes ∧
    cexRes 1 ≠ (layerCount (cexBuf 1) : ℚ)⁻¹ •
      layerSumsq (fun x => append_homog_coord x) (cexBuf 1) := by
  constructor
  · unfold estimate_block_factors_homog
    rw [estimate_block_factors_eq (fun m => m + 1) (fun x => append_homog_coord x)
      cexBuf (by decide) (by decide)]
    refine congrArg some (funext fun i => ?_)
    fin_cases i <;>
      · ext a b
        fin_cases a <;> fin_cases b <;>
          simp [cexBuf, cexRes, layerCount, layerSumsq, sumsq, append_homog_coord,
            Matrix.mul_apply, Fin.sum_univ_succ, Fin.snoc, Matrix.smul_apply]
  · intro h
    have h00 := congrFun (congrFun h 0) 0
    simp [cexBuf, cexRes, layerCount, layerSumsq, sumsq, append_homog_coord,
      Matrix.mul_apply, Fin.sum_univ_succ, Fin.snoc, Matrix.smul_apply] at h00

/-- C2 (amended): provided every layer's total example count equals layer
0's — as holds for every buffer the training loop assembles — the
empirical A-factor of each layer is the sum over that layer's batches of
(batch with a 1-column appended)ᵀ·(batch with the column appended), divided
by that layer's total example count in one global normalization, and the
G-factor is identical without the appended column. -/
theorem estimate_block_factors_own_count {L : ℕ} {w : Fin L → ℕ} (all_samples : Buf w)
    (hL : 0 < L) (hpos : 0 < layerCount (all_samples ⟨0, hL⟩))
    (hcounts : ∀ i, layerCount (all_samples i) = layerCount (all_samples ⟨0, hL⟩)) :
    estimate_block_factors_homog all_samples =
      some (fun i => (layerCount (all_samples i) : ℚ)⁻¹ •
        layerSumsq (fun x => append_homog_coord x) (all_samples i)) ∧
    estimate_block_factors_plain all_samples =
      some (fun i => (layerCount (all_samples i) : ℚ)⁻¹ •
        layerSumsq (fun x => x) (all_samples i)) := by
  have hguard : ∀ i, ¬((all_samples i).isEmpty ∧ layerCount (all_samples ⟨0, hL⟩) = 0) := by
    intro i hi
    exact absurd hi.2 (Nat.pos_iff_ne_zero.mp hpos)
  have h := estimate_uses_first_layer_count all_samples hL hguard
  refine ⟨h.1.trans ?_, h.2.trans ?_⟩
  · exact congrArg some (funext fun i => by rw [hcounts i])
  · exact congrArg some (funext fun i => by rw [hcounts i])

/-- Witness for the amended C2, on a one-layer buffer with a single
1-example batch `[[1]]`. -/
theorem estimate_block_factors_own_count_witness :
    (0 < layerCount (wBuf ⟨0, by decide⟩)) ∧
    (∀ i, layerCount (wBuf i) = layerCount (wBuf ⟨0, by decide⟩)) ∧
    (@estimate_block_factors_homog 1 (fun _ => 1) wBuf =
      some (fun i => (layerCount (wBuf i) : ℚ)⁻¹ •
        layerSumsq (fun x => append_homog_coord x) (wBuf i)) ∧
     @estimate_block_factors_plain 1 (fun _ => 1) wBuf =
      some (fun i => (layerCount (wBuf i) : ℚ)⁻¹ •
        layerSumsq (fun x => x) (wBuf i))) :=
  ⟨by decide, by decide,
    estimate_block_factors_own_count wBuf (by decide) (by decide) (by decide)⟩

/-- C7: re-estimating from a buffer with zero collected batches fails
(`sum([])` is the integer 0, and `0 / num_samples` with the zero total
count raises `ZeroDivisionError` at the call site): both block-factor
estimates and the full `update_factor_estimates` return no result. -/
theorem estimate_empty_buffer_fails {L : ℕ} {aw gw : Fin L → ℕ} (hL : 0 < L)
    (bufA : Buf aw) (bufG : Buf gw) (hA : ∀ i, bufA i = []) (hG : ∀ i, bufG i = []) :
    estimate_block_factors_homog bufA = none ∧
    estimate_block_factors_plain bufG = none ∧
    ∀ (old : Factors aw gw) (eps : ℚ),
      update_factor_estimates old (bufA, bufG) eps = none := by
  have hAe : estimate_block_factors_homog bufA = none := by
    unfold estimate_block_factors_homog estimate_block_factors
    rw [dif_pos hL, if_neg]
    intro hall
    exact hall ⟨0, hL⟩ ⟨by rw [hA]; rfl, by rw [hA]; rfl⟩
  have hGe : estimate_block_factors_plain bufG = none := by
    unfold estimate_block_factors_plain estimate_block_factors
    rw [dif_pos hL, if_neg]
    intro hall
    exact hall ⟨0, hL⟩ ⟨by rw [hG]; rfl, by rw [hG]; rfl⟩
  refine ⟨hAe, hGe, fun old eps => ?_⟩
  unfold update_factor_estimates
  rw [hAe]
  rfl

/-- Witness for C7 on the all-empty one-layer buffer. -/
theorem estimate_empty_buffer_fails_witness :
    (0 < 1) ∧ (∀ i, wEmptyBuf i = []) ∧
    (@estimate_block_factors_homog 1 (fun _ => 1) wEmptyBuf = none ∧
     @estimate_block_factors_plain 1 (fun _ => 1) wEmptyBuf = none ∧
     ∀ (old : Factors (fun _ : Fin 1 => 1) (fun _ : Fin 1 => 1)) (eps : ℚ),
       update_factor_estimates old (wEmptyBuf, wEmptyBuf) eps = none) :=
  ⟨by decide, by decide,
    estimate_empty_buffer_fails (by decide) wEmptyBuf wEmptyBuf
      (by decide) (by decide)⟩

/-- C8: for a valid layer-size vector (length at least 2, positive
entries), `init_factor_estimates` returns the identity A-factor of
dimension `sizes[i] + 1` and the identity G-factor of dimension
`sizes[i+1]` for every layer `i`, and every successful re-estimation via
`update_factor_estimates` keeps exactly those dimensions. -/
theorem init_factor_estimates_identity_and_dims {L : ℕ} (sizes : Fin (L + 1) → ℕ)
    (hL : 0 < L) (hpos : ∀ i, 0 < sizes i) :
    (∀ i : Fin L, (init_factor_estimates sizes).1 i = (1 : SqMat (sizes i.castSucc + 1)) ∧
      matSize ((init_factor_estimates sizes).1 i) = sizes i.castSucc + 1) ∧
    (∀ i : Fin L, (init_factor_estimates sizes).2 i = (1 : SqMat (sizes i.succ)) ∧
      matSize ((init_factor_estimates sizes).2 i) = sizes i.succ) ∧
    (∀ (old : Factors (AW sizes) (GW sizes)) (samples : Buf (AW sizes) × Buf (GW sizes))
       (eps : ℚ) (r : Factors (AW sizes) (GW sizes)),
      update_factor_estimates old samples eps = some r →
      ∀ i : Fin L, matSize (r.1 i) = sizes i.castSucc + 1 ∧ matSize (r.2 i) = sizes i.succ) :=
  ⟨fun _ => ⟨rfl, rfl⟩, fun _ => ⟨rfl, rfl⟩,
   fun _ _ _ _ _ _ => ⟨rfl, rfl⟩⟩

/-- Witness for C8 at the layer sizes `[1, 1]`. -/
theorem init_factor_estimates_identity_and_dims_witness :
    (0 < 1) ∧ (∀ i, 0 < wSizes i) ∧
    ((∀ i : Fin 1, (init_factor_estimates wSizes).1 i = (1 : SqMat (wSizes i.castSucc + 1)) ∧
       matSize ((init_factor_estimates wSizes).1 i) = wSizes i.castSucc + 1) ∧
     (∀ i : Fin 1, (init_factor_estimates wSizes).2 i = (1 : SqMat (wSizes i.succ)) ∧
       matSize ((init_factor_estimates wSizes).2 i) = wSizes i.succ) ∧
     (∀ (old : Factors (AW wSizes) (GW wSizes)) (samples : Buf (AW wSizes) × Buf (GW wSizes))
        (eps : ℚ) (r : Factors (AW wSizes) (GW wSizes)),
       update_factor_estimates old samples eps = some r →
       ∀ i : Fin 1, matSize (r.1 i) = wSizes i.castSucc + 1 ∧ matSize (r.2 i) = wSizes i.succ)) :=
  ⟨by decide, by decide,
    init_factor_estimates_identity_and_dims wSizes (by decide) (by decide)⟩

/-- Evaluation of the homogeneous-coordinate block-factor wrapper under the
guard. -/
theorem estimate_block_factors_homog_eq {L : ℕ} {w : Fin L → ℕ} (all_samples : Buf w)
    (hL : 0 < L)
    (hguard : ∀ i, ¬((all_samples i).isEmpty ∧ layerCount (all_samples ⟨0, hL⟩) = 0)) :
    estimate_block_factors_homog all_samples =
      some fun i => (layerCount (all_samples ⟨0, hL⟩) : ℚ)⁻¹ •
        layerSumsq (fun x => append_homog_coord x) (all_samples i) := by
  unfold estimate_block_factors_homog
  exact estimate_block_factors_eq (fun m => m + 1) (fun x => append_homog_coord x)
    all_samples hL hguard

/-- Evaluation of the plain block-factor wrapper under the guard. -/
theorem estimate_block_factors_plain_eq {L : ℕ} {w : Fin L → ℕ} (all_samples : Buf w)
    (hL : 0 < L)
    (hguard : ∀ i, ¬((all_samples i).isEmpty ∧ layerCount (all_samples ⟨0, hL⟩) = 0)) :
    estimate_block_factors_plain all_samples =
      some fun i => (layerCount (all_samples ⟨0, hL⟩) : ℚ)⁻¹ •
        layerSumsq (fun x => x) (all_samples i) := by
  unfold estimate_block_factors_plain
  exact estimate_block_factors_eq (fun m => m) (fun x => x) all_samples hL hguard

/-- C1: on a non-empty buffer `update_factor_estimates` returns, per layer
and independently for the A-factor and the G-factor, exactly
`eps • old + (1 - eps) • new_empirical_moment`; when `eps = 0` the result
is exactly the pair of empirical second moments of the buffered samples. -/
theorem update_factor_estimates_ema {L : ℕ} {aw gw : Fin L → ℕ}
    (old : Factors aw gw) (samples : Buf aw × Buf gw) (eps : ℚ)
    (h0 : 0 ≤ eps) (h1 : eps < 1) (hL : 0 < L)
    (hguardA : ∀ i, ¬((samples.1 i).isEmpty ∧ layerCount (samples.1 ⟨0, hL⟩) = 0))
    (hguardG : ∀ i, ¬((samples.2 i).isEmpty ∧ layerCount (samples.2 ⟨0, hL⟩) = 0)) :
    update_factor_estimates old samples eps =
      some (fun i => eps • old.1 i + (1 - eps) •
              ((layerCount (samples.1 ⟨0, hL⟩) : ℚ)⁻¹ •
                layerSumsq (fun x => append_homog_coord x) (samples.1 i)),
            fun i => eps • old.2 i + (1 - eps) •
              ((layerCount (samples.2 ⟨0, hL⟩) : ℚ)⁻¹ •
                layerSumsq (fun x => x) (samples.2 i))) ∧
    (eps = 0 → update_factor_estimates old samples eps =
      some (fun i => (layerCount (samples.1 ⟨0, hL⟩) : ℚ)⁻¹ •
              layerSumsq (fun x => append_homog_coord x) (samples.1 i),
            fun i => (layerCount (samples.2 ⟨0, hL⟩) : ℚ)⁻¹ •
              layerSumsq (fun x => x) (samples.2 i))) := by
  have hA := estimate_block_factors_homog_eq samples.1 hL hguardA
  have hG := estimate_block_factors_plain_eq samples.2 hL hguardG
  have hmain : update_factor_estimates old samples eps =
      some (fun i => eps • old.1 i + (1 - eps) •
              ((layerCount (samples.1 ⟨0, hL⟩) : ℚ)⁻¹ •
                layerSumsq (fun x => append_homog_coord x) (samples.1 i)),
            fun i => eps • old.2 i + (1 - eps) •
              ((layerCount (samples.2 ⟨0, hL⟩) : ℚ)⁻¹ •
                layerSumsq (fun x => x) (samples.2 i))) := by
    unfold update_factor_estimates
    rw [hA, hG]
    rfl
  refine ⟨hmain, fun he => ?_⟩
  rw [hmain, he]
  refine congrArg some (Prod.ext ?_ ?_) <;> · funext i; simp

/-- Witness for C1 at `eps = 0` on a one-layer buffer with a single
1-example batch. -/
theorem update_factor_estimates_ema_witness :
    ((0 : ℚ) ≤ 0) ∧ ((0 : ℚ) < 1) ∧ (0 < 1) ∧
    (∀ i, ¬((wBuf i).isEmpty ∧ layerCount (wBuf ⟨0, by decide⟩) = 0)) ∧
    (@update_factor_estimates 1 (fun _ => 1) (fun _ => 1) wFactors (wBuf, wBuf) 0 =
      some (fun i => (0 : ℚ) • wFactors.1 i + ((1 : ℚ) - 0) •
              ((layerCount (wBuf ⟨0, by decide⟩) : ℚ)⁻¹ •
                layerSumsq (fun x => append_homog_coord x) (wBuf i)),
            fun i => (0 : ℚ) • wFactors.2 i + ((1 : ℚ) - 0) •
              ((layerCount (wBuf ⟨0, by decide⟩) : ℚ)⁻¹ •
                layerSumsq (fun x => x) (wBuf i))) ∧
     ((0 : ℚ) = 0 → @update_factor_estimates 1 (fun _ => 1) (fun _ => 1) wFactors (wBuf, wBuf) 0 =
      some (fun i => (layerCount (wBuf ⟨0, by decide⟩) : ℚ)⁻¹ •
              layerSumsq (fun x => append_homog_coord x) (wBuf i),
            fun i => (layerCount (wBuf ⟨0, by decide⟩) : ℚ)⁻¹ •
              layerSumsq (fun x => x) (wBuf i)))) :=
  ⟨le_refl 0, by norm_num, by decide, by decide,
    update_factor_estimates_ema wFactors (wBuf, wBuf) 0 (le_refl 0) (by norm_num)
      (by decide) (by decide) (by decide)⟩

/-- Recombining the two halves returned by `apply_block` recovers the full
natural-gradient matrix: the split really is first `m` rows / last row. -/
theorem vstackRow_split {m n : ℕ} (M : Mat (m + 1) n) :
    vstackRow (Matrix.of fun i => M i.castSucc) (M (Fin.last m)) = M := by
  ext i j
  refine Fin.lastCases ?_ ?_ i
  · simp [vstackRow]
  · intro k
    simp [vstackRow]

/-- C3: `apply_preconditioner` returns per layer the sandwich
`Ainv · vstack(W_grad, b_grad) · Ginv` split into its first `m` rows and
its last row, and with identity `Ainv`/`Ginv` on every layer it returns the
raw gradient unchanged. -/
theorem apply_preconditioner_sandwich_and_identity :
    (∀ (m n : ℕ) (Ainv : SqMat (m + 1)) (Ginv : SqMat n) (W_grad : Mat m n)
       (b_grad : Fin n → ℚ),
      vstackRow (apply_block Ainv Ginv W_grad b_grad).1
          (apply_block Ainv Ginv W_grad b_grad).2 =
        Ainv * (vstackRow W_grad b_grad * Ginv)) ∧
    (∀ (L : ℕ) (mw nw : Fin L → ℕ) (gradient : Grads mw nw),
      apply_preconditioner (fun _ => 1, fun _ => 1) gradient = gradient) := by
  constructor
  · intro m n Ainv Ginv W_grad b_grad
    exact vstackRow_split _
  · intro L mw nw gradient
    funext i
    show apply_block 1 1 (gradient i).1 (gradient i).2 = gradient i
    unfold apply_block
    simp only [Matrix.mul_one, Matrix.one_mul]
    have h1 : (Matrix.of fun k => vstackRow (gradient i).1 (gradient i).2 k.castSucc) =
        (gradient i).1 := by
      ext a b; simp [vstackRow]
    have h2 : vstackRow (gradient i).1 (gradient i).2 (Fin.last _) = (gradient i).2 := by
      funext b; simp [vstackRow]
    rw [h1, h2]

/-- Left inverse property of the exact `np.linalg.inv` model. -/
theorem matInv_mul {n : ℕ} (Y : SqMat n) (h : Y.det ≠ 0) : matInv Y * Y = 1 := by
  rw [matInv, smul_mul_assoc, Matrix.adjugate_mul, smul_smul, inv_mul_cancel₀ h, one_smul]

/-- Right inverse property of the exact `np.linalg.inv` model. -/
theorem mul_matInv {n : ℕ} (Y : SqMat n) (h : Y.det ≠ 0) : Y * matInv Y = 1 := by
  rw [matInv, mul_smul_comm, Matrix.mul_adjugate, smul_smul, inv_mul_cancel₀ h, one_smul]

/-- C4: for every factor estimate and damping `lmbda ≥ 0` whose damped
matrices are invertible, `compute_precond` returns per layer and per factor
the matrix inverse of `X + lmbda • 1`: multiplying by `X + lmbda • 1` on
either side reproduces the identity. -/
theorem compute_precond_inverse {L : ℕ} {aw gw : Fin L → ℕ}
    (fe : (∀ i : Fin L, SqMat (aw i)) × (∀ i : Fin L, SqMat (gw i))) (lmbda : ℚ)
    (h0 : 0 ≤ lmbda)
    (hdetA : ∀ i, (fe.1 i + lmbda • 1).det ≠ 0)
    (hdetG : ∀ i, (fe.2 i + lmbda • 1).det ≠ 0) :
    (∀ i, (compute_precond fe lmbda).1 i = matInv (fe.1 i + lmbda • 1) ∧
      (compute_precond fe lmbda).1 i * (fe.1 i + lmbda • 1) = 1 ∧
      (fe.1 i + lmbda • 1) * (compute_precond fe lmbda).1 i = 1) ∧
    (∀ i, (compute_precond fe lmbda).2 i = matInv (fe.2 i + lmbda • 1) ∧
      (compute_precond fe lmbda).2 i * (fe.2 i + lmbda • 1) = 1 ∧
      (fe.2 i + lmbda • 1) * (compute_precond fe lmbda).2 i = 1) :=
  ⟨fun i => ⟨rfl, matInv_mul _ (hdetA i), mul_matInv _ (hdetA i)⟩,
   fun i => ⟨rfl, matInv_mul _ (hdetG i), mul_matInv _ (hdetG i)⟩⟩

/-- The damped identity A-factors of the witness architecture have nonzero
determinant. -/
theorem wFactors_dampedA_det : ∀ i : Fin 1, (wFactors.1 i + (1 : ℚ) • 1).det ≠ 0 := by
  intro i
  have h : wFactors.1 i + (1 : ℚ) • 1 = (2 : ℚ) • (1 : SqMat 2) := by
    show (1 : SqMat 2) + (1 : ℚ) • 1 = (2 : ℚ) • 1
    rw [one_smul, two_smul]
  rw [h, Matrix.det_smul, Matrix.det_one]
  norm_num

/-- The damped identity G-factors of the witness architecture have nonzero
determinant. -/
theorem wFactors_dampedG_det : ∀ i : Fin 1, (wFactors.2 i + (1 : ℚ) • 1).det ≠ 0 := by
  intro i
  have h : wFactors.2 i + (1 : ℚ) • 1 = (2 : ℚ) • (1 : SqMat 1) := by
    show (1 : SqMat 1) + (1 : ℚ) • 1 = (2 : ℚ) • 1
    rw [one_smul, two_smul]
  rw [h, Matrix.det_smul, Matrix.det_one]
  norm_num

/-- Witness for C4 at the identity factors of the `[1, 1]` architecture
with damping 1. -/
theorem compute_precond_inverse_witness :
    ((0 : ℚ) ≤ 1) ∧
    (∀ i, ((wFactors.1 i + (1 : ℚ) • 1).det ≠ 0)) ∧
    (∀ i, ((wFactors.2 i + (1 : ℚ) • 1).det ≠ 0)) ∧
    ((∀ i, (compute_precond wFactors 1).1 i = matInv (wFactors.1 i + (1 : ℚ) • 1) ∧
       (compute_precond wFactors 1).1 i * (wFactors.1 i + (1 : ℚ) • 1) = 1 ∧
       (wFactors.1 i + (1 : ℚ) • 1) * (compute_precond wFactors 1).1 i = 1) ∧
     (∀ i, (compute_precond wFactors 1).2 i = matInv (wFactors.2 i + (1 : ℚ) • 1) ∧
       (compute_precond wFactors 1).2 i * (wFactors.2 i + (1 : ℚ) • 1) = 1 ∧
       (wFactors.2 i + (1 : ℚ) • 1) * (compute_precond wFactors 1).2 i = 1)) :=
  ⟨by norm_num, wFactors_dampedA_det, wFactors_dampedG_det,
   compute_precond_inverse wFactors 1 (by norm_num)
     wFactors_dampedA_det wFactors_dampedG_det⟩

/-- C9: when each row of `exp(logprobs)` sums to 1 and the uniform draws
lie in `[0, 1)`, every computed index is strictly below `D`, so the lookup
into the rows of `np.eye(D)` is in range and every returned row is the
one-hot standard basis vector selected by the index. -/
theorem sample_discrete_one_hot (exp : ℚ → ℚ) {N D : ℕ} (logprobs : Mat N D)
    (r : Fin N → ℚ)
    (hsum : ∀ i, (Finset.univ.sum fun j => exp (logprobs i j)) = 1)
    (hr : ∀ i, 0 ≤ r i ∧ r i < 1) :
    (∀ i, sample_indices exp logprobs r i < D) ∧
    sample_discrete_from_log exp logprobs r =
      some (Matrix.of fun (i : Fin N) (j : Fin D) =>
        if (j : ℕ) = sample_indices exp logprobs r i then 1 else 0) := by
  have hidx : ∀ i, sample_indices exp logprobs r i < D := by
    intro i
    obtain ⟨d, rfl⟩ : ∃ d, D = d + 1 := by
      cases D with
      | zero => exact absurd (hsum i) (by simp)
      | succ d => exact ⟨d, rfl⟩
    have hcum : cumvals exp logprobs i (Fin.last d) = 1 := by
      have huniv : Finset.Iic (Fin.last d) = Finset.univ := by
        ext k; simp [Fin.le_last]
      unfold cumvals
      rw [Matrix.of_apply, huniv]
      exact hsum i
    have hlast : ¬(cumvals exp logprobs i (Fin.last d) < r i) := by
      rw [hcum]
      exact not_lt.mpr (le_of_lt (hr i).2)
    have hsub : (Finset.univ.filter fun j => cumvals exp logprobs i j < r i) ⊆
        Finset.univ.erase (Fin.last d) := by
      intro j hj
      rw [Finset.mem_erase]
      refine ⟨?_, Finset.mem_univ _⟩
      rintro rfl
      exact hlast (Finset.mem_filter.mp hj).2
    calc sample_indices exp logprobs r i
        ≤ (Finset.univ.erase (Fin.last d)).card := Finset.card_le_card hsub
      _ < Finset.univ.card := Finset.card_erase_lt_of_mem (Finset.mem_univ _)
      _ = d + 1 := by simp
  refine ⟨hidx, ?_⟩
  unfold sample_discrete_from_log
  rw [if_pos hidx]

/-- Witness for C9 on a single-row, single-class input with `exp` the
identity, log-probability matrix `[[1]]` and draw `1/2`. -/
theorem sample_discrete_one_hot_witness :
    (∀ i : Fin 1, (Finset.univ.sum fun j => (fun q => q) ((!![1] : Mat 1 1) i j)) = 1) ∧
    (∀ i : Fin 1, 0 ≤ (fun _ : Fin 1 => (1 / 2 : ℚ)) i ∧
      (fun _ : Fin 1 => (1 / 2 : ℚ)) i < 1) ∧
    ((∀ i, sample_indices (fun q => q) (!![1] : Mat 1 1)
        (fun _ => (1 / 2 : ℚ)) i < 1) ∧
     sample_discrete_from_log (fun q => q) (!![1] : Mat 1 1) (fun _ => (1 / 2 : ℚ)) =
       some (Matrix.of fun (i : Fin 1) (j : Fin 1) =>
         if (j : ℕ) = sample_indices (fun q => q) (!![1] : Mat 1 1)
             (fun _ => (1 / 2 : ℚ)) i then 1 else 0)) :=
  ⟨by intro i; simp,
   by intro i; norm_num,
   sample_discrete_one_hot (fun q => q) !![1] (fun _ => (1 / 2 : ℚ))
     (by intro i; simp) (by intro i; norm_num)⟩

/-- C6 (code bug): `neural_net_predict` never returns — the `softmax` on
its path passes the misspelled keyword `kepdims` to `logsumexp`, raising
`TypeError` — while the Sampler's forward pass with all extra biases zero
computes exactly the intended `softmax(mlp(params, inputs))`, the log
probabilities `mlp(params, inputs) - logsumexp(..., keepdims=True)`.  The
two paths agree only once the keyword is spelled `keepdims`. -/
theorem predict_objective_vs_sampler (tanh : ℚ → ℚ)
    (lse : ∀ {D : ℕ}, (Fin D → ℚ) → ℚ) :
    (∀ (N m n : ℕ) (params : Net m n) (inputs : Mat N m),
      neural_net_predict tanh (fun v => lse v) params inputs = none) ∧
    (∀ (N m n : ℕ) (params : Net m n) (inputs : Mat N m),
      (neural_net_predict_and_activations tanh (fun v => lse v) params
          (zeroEB N params) inputs).1 =
        softmax_intended (fun v => lse v) (mlp tanh params inputs)) := by
  constructor
  · intro N m n params inputs
    unfold neural_net_predict softmax
    rw [if_neg (by decide)]
  · intro N m n params inputs
    induction params with
    | single W b =>
      simp [neural_net_predict_and_activations, mlp, softmax_intended, zeroEB]
    | cons W b rest ih =>
      simp [neural_net_predict_and_activations, mlp, zeroEB, ih]

/-- C5: each `kfac` iteration, after evaluating the objective gradient,
collects samples exactly when `(i+1) % sample_period = 0`, re-estimates the
factors from the post-collection buffer and resets the buffer to empty
exactly when `(i+1) % reestimate_period = 0`, rebuilds the preconditioner
from the post-re-estimation factors exactly when
`(i+1) % update_precond_period = 0`, and finally replaces the parameters by
`old - step_size • natgrad` where the natural gradient is obtained from the
current (possibly stale) preconditioner. -/
theorem kfac_step_phases {L : ℕ} (sizes : Fin (L + 1) → ℕ)
    (objective_grad : Grads (AW sizes) (GW sizes) → ℕ → ℚ × Grads (AW sizes) (GW sizes))
    (sampler : Grads (AW sizes) (GW sizes) → ℕ →
      (∀ i : Fin L, (N : ℕ) × Mat N (AW sizes i)) × (∀ i : Fin L, (N : ℕ) × Mat N (GW sizes i)))
    (step_size : ℚ) (sample_period reestimate_period update_precond_period : ℕ)
    (lmbda eps : ℚ)
    (hsp : 0 < sample_period) (hrp : 0 < reestimate_period)
    (hup : 0 < update_precond_period)
    (st : KfacState sizes) (i : ℕ)
    (samples1 : Buf (AW sizes) × Buf (GW sizes))
    (hs1 : samples1 = if (i + 1) % sample_period = 0 then
        (append_samples st.samples.1 (sampler st.params i).1,
         append_samples st.samples.2 (sampler st.params i).2)
      else st.samples)
    (factors2 : Factors (AW sizes) (GW sizes))
    (hf2 : if (i + 1) % reestimate_period = 0 then
        update_factor_estimates st.factors samples1 eps = some factors2
      else factors2 = st.factors) :
    kfac_step sizes objective_grad sampler step_size sample_period reestimate_period
        update_precond_period lmbda eps st i =
      some { params := update_params st.params
               (apply_preconditioner
                 (if (i + 1) % update_precond_period = 0 then compute_precond factors2 lmbda
                  else st.precond)
                 (objective_grad st.params i).2) step_size,
             samples := if (i + 1) % reestimate_period = 0 then init_sample_lists sizes
                        else samples1,
             factors := factors2,
             precond := if (i + 1) % update_precond_period = 0 then compute_precond factors2 lmbda
                        else st.precond } := by
  subst hs1
  by_cases hr : (i + 1) % reestimate_period = 0
  · rw [if_pos hr] at hf2
    simp [kfac_step, hr, hf2]
  · rw [if_neg hr] at hf2
    subst hf2
    simp [kfac_step, hr]

/-- Witness for C5: one concrete iteration (`i = 0`) of the loop on the
`[1, 1]` architecture with `sample_period = 1` (collection fires),
`reestimate_period = 2` (no re-estimation yet) and
`update_precond_period = 1` (rebuild fires). -/
theorem kfac_step_phases_witness :
    (0 < 1) ∧ (0 < 2) ∧ (0 < 1) ∧
    (wSamples1 = if (0 + 1) % 1 = 0 then
        (append_samples wState.samples.1 (wSampler wState.params 0).1,
         append_samples wState.samples.2 (wSampler wState.params 0).2)
      else wState.samples) ∧
    (if (0 + 1) % 2 = 0 then
        update_factor_estimates wState.factors wSamples1 0 = some wFactors
      else wFactors = wState.factors) ∧
    kfac_step wSizes wObjGrad wSampler 1 1 2 1 0 0 wState 0 =
      some { params := update_params wState.params
               (apply_preconditioner
                 (if (0 + 1) % 1 = 0 then compute_precond wFactors 0 else wState.precond)
                 (wObjGrad wState.params 0).2) 1,
             samples := if (0 + 1) % 2 = 0 then init_sample_lists wSizes else wSamples1,
             factors := wFactors,
             precond := if (0 + 1) % 1 = 0 then compute_precond wFactors 0
                        else wState.precond } :=
  ⟨by decide, by decide, by decide, by decide, rfl,
   kfac_step_phases wSizes wObjGrad wSampler 1 1 2 1 0 0 (by decide) (by decide)
     (by decide) wState 0 wSamples1 (by decide) wFactors rfl⟩

end KfacPre
